import Mathlib

set_option maxRecDepth 10000
set_option linter.dupNamespace false

/-!
Shallow embedding of `vendor/github.com/suborbital/atmo/directive/directive.go`
(the directive validation engine).  Go maps are modelled as association lists
with insert-at-front / first-match-lookup (observationally the same get/exists
behaviour), Go string-keyed `map[string]bool` sets as `List String` with
membership, Go `nil` pointers as `Option`, and Go errors as the message strings
they carry.  The external predicate `semver.IsValid` is passed in as a
parameter `sv : String → Bool`.
-/

deriving instance DecidableEq for Except

namespace Atmo

/-- Single-quote character, used when rendering Go error messages. -/
def sq : String := String.singleton (Char.ofNat 39)

/-- A word wrapped in single quotes, as the Go messages print them. -/
def quoted (s : String) : String := sq ++ s ++ sq

/-- Go const `NamespaceDefault = "default"`. -/
def NamespaceDefault : String := "default"

/-- Go const `InputTypeRequest = "request"`. -/
def InputTypeRequest : String := "request"

/-- Go struct `Alias`: parsed version of an entry of a `CallableFn.With` list.
`Alias{Alias: a, Key: k}` means state key `k` enters the fn state under `a`. -/
structure Alias where
  Key : String
  Alias : String
deriving DecidableEq, Repr, Inhabited

/-- Go struct `FnOnErr`.  The Go field `Code` is a `map[int]string`; it is
modelled as an association list (iterated in list order where Go iterates the
map in unspecified order). -/
structure FnOnErr where
  Code : List (Int × String)
  Any : String
  Other : String
deriving DecidableEq, Repr, Inhabited

/-- Go struct `CallableFn`.  `DesiredState` is the lazily-filled parse cache
(`yaml:"-"`, so a freshly decoded value has it nil, modelled as `[]`). -/
structure CallableFn where
  Fn : String
  As : String
  With : List String
  OnErr : Option FnOnErr
  DesiredState : List Alias
deriving DecidableEq, Repr, Inhabited

/-- Go struct `ForEach`. -/
structure ForEach where
  In : String
  Fn : CallableFn
  As : String
deriving DecidableEq, Repr, Inhabited

/-- Go struct `Executable`: an inlined `CallableFn` plus optional `Group`
(a nil-able slice: `none` is Go nil, `some []` a non-nil empty slice) and an
optional `ForEach` pointer. -/
structure Executable where
  callableFn : CallableFn
  Group : Option (List CallableFn)
  ForEach : Option ForEach
deriving DecidableEq, Repr, Inhabited

/-- Go struct `Input` (the Go field `Type` is written in guillemets because
`Type` is a Lean keyword). -/
structure Input where
  «Type» : String
  Method : String
  Resource : String
deriving DecidableEq, Repr, Inhabited

/-- Go struct `Handler`. -/
structure Handler where
  Input : Input
  Steps : List Executable
  Response : String
deriving DecidableEq, Repr, Inhabited

/-- Go struct `ScheduleEvery` (Go `int` fields, so `Int`). -/
structure ScheduleEvery where
  Seconds : Int
  Minutes : Int
  Hours : Int
  Days : Int
deriving DecidableEq, Repr, Inhabited

/-- Go struct `Schedule`.  `State` is a `map[string]string`, modelled as an
association list; only its key set is used by validation. -/
structure Schedule where
  Name : String
  Every : ScheduleEvery
  State : List (String × String)
  Steps : List Executable
deriving DecidableEq, Repr, Inhabited

/-- Modelled from the spec: the `Runnable` struct is declared in a file of the
atmo package that is not part of this repository snapshot; per the spec it is
"a declared function identity: `name`, `namespace`", and `directive.go` reads
exactly the fields `Name` and `Namespace` from it. -/
structure Runnable where
  Name : String
  Namespace : String
deriving DecidableEq, Repr, Inhabited

/-- Go struct `Directive`.  `fqfns` is the lazily computed FQFN cache
(`nil` until `calculateFQFNs` runs, modelled as `Option`). -/
structure Directive where
  Identifier : String
  AppVersion : String
  AtmoVersion : String
  Runnables : List Runnable
  Handlers : List Handler
  Schedules : List Schedule
  fqfns : Option (List (String × String))
deriving DecidableEq, Repr, Inhabited

/-- Go `type executableType string` with its two constants
`executableTypeHandler`/`executableTypeSchedule`. -/
inductive executableType where
  | handler
  | schedule
deriving DecidableEq, Repr, Inhabited

/-- The string value of an `executableType`. -/
def executableType.render : executableType → String
  | .handler => "handler"
  | .schedule => "schedule"

/-- One problem appended to the Go `problems` collector.  Each constructor
corresponds to one `problems.add(...)` call site in `directive.go`; `render`
below produces the exact message text. -/
inductive Problem where
  | identifierMissing
  | appVersionInvalid
  | atmoVersionInvalid
  | noFunctions
  | duplicateFn (namespaced : String)
  | missingName (pos : Nat)
  | missingNamespace (pos : Nat)
  | handlerMissingType (resource : String)
  | handlerMissingResource (resource : String)
  | handlerMissingMethod (resource : String)
  | handlerMissingSteps (resource : String)
  | groupLastNoResponse (name : String)
  | responseKeyNotExist (name resp : String)
  | scheduleNoName (pos : Nat)
  | scheduleMissingSteps (name : String)
  | scheduleNoEvery (name : String)
  | stepNotFnGroupForEach (pos : Nat) (exType : executableType) (name : String)
  | fnNotExist (exType : executableType) (name : String) (step : Nat) (fn : String)
  | invalidWith (exType : executableType) (name : String) (step : Nat) (msg : String)
  | keyNotAvailable (exType : executableType) (name : String) (step : Nat) (key : String)
  | onErrAnyWithCodes (exType : executableType) (name : String) (step : Nat)
  | onErrAnyInvalid (exType : executableType) (name : String) (step : Nat) (val : String)
  | onErrOtherWithoutCodes (exType : executableType) (name : String) (step : Nat)
  | onErrOtherInvalid (exType : executableType) (name : String) (step : Nat) (val : String)
  | onErrCodeInvalid (exType : executableType) (name : String) (step : Nat) (code : Int) (val : String)
  | forEachMissingAs (pos : Nat) (exType : executableType) (name : String)
  | forEachFnAsWith (pos : Nat) (exType : executableType) (name : String)
deriving DecidableEq, Repr

/-- The exact Go error message of each problem (note: the Go source prints
`onErr.any` in the message for an invalid `onErr.other` value, and leaves a
trailing blank in the ForEach as/with message; both are reproduced). -/
def Problem.render : Problem → String
  | .identifierMissing => "identifier is missing"
  | .appVersionInvalid => "app version is not a valid semantic version"
  | .atmoVersionInvalid => "atmo version is not a valid semantic version"
  | .noFunctions => "no functions listed"
  | .duplicateFn namespaced => "duplicate fn " ++ namespaced ++ " found"
  | .missingName pos => "function at position " ++ toString pos ++ " missing name"
  | .missingNamespace pos => "function at position " ++ toString pos ++ " missing namespace"
  | .handlerMissingType resource => "handler for resource " ++ resource ++ " missing type"
  | .handlerMissingResource resource => "handler for resource " ++ resource ++ " missing resource"
  | .handlerMissingMethod resource => "handler for resource " ++ resource ++ " is of type request, but does not specify a method"
  | .handlerMissingSteps resource => "handler for resource " ++ resource ++ " missing steps"
  | .groupLastNoResponse name => "handler for " ++ name ++ " has group as last step but does not include " ++ quoted "response" ++ " field"
  | .responseKeyNotExist name resp => "handler for " ++ name ++ " lists response state key that does not exist: " ++ resp
  | .scheduleNoName pos => "schedule at position " ++ toString pos ++ " has no name"
  | .scheduleMissingSteps name => "schedule " ++ name ++ " missing steps"
  | .scheduleNoEvery name => "schedule " ++ name ++ " has no " ++ quoted "every" ++ " values"
  | .stepNotFnGroupForEach pos exType name => "step at position " ++ toString pos ++ " for " ++ exType.render ++ " " ++ name ++ " isn" ++ sq ++ "t an Fn, Group, or ForEach"
  | .fnNotExist exType name step fn => exType.render ++ " for " ++ name ++ " lists fn at step " ++ toString step ++ " that does not exist: " ++ fn ++ " (did you forget a namespace?)"
  | .invalidWith exType name step msg => exType.render ++ " for " ++ name ++ " has invalid " ++ quoted "with" ++ " value at step " ++ toString step ++ ": " ++ msg
  | .keyNotAvailable exType name step key => exType.render ++ " for " ++ name ++ " has " ++ quoted "with" ++ " value at step " ++ toString step ++ " referencing a key that is not yet available in the handler" ++ sq ++ "s state: " ++ key
  | .onErrAnyWithCodes exType name step => exType.render ++ " for " ++ name ++ " has " ++ quoted "onErr.any" ++ " value at step " ++ toString step ++ " while specific codes are specified, use " ++ quoted "other" ++ " instead"
  | .onErrAnyInvalid exType name step val => exType.render ++ " for " ++ name ++ " has " ++ quoted "onErr.any" ++ " value at step " ++ toString step ++ " with an invalid error directive: " ++ val
  | .onErrOtherWithoutCodes exType name step => exType.render ++ " for " ++ name ++ " has " ++ quoted "onErr.other" ++ " value at step " ++ toString step ++ " while specific codes are not specified, use " ++ quoted "any" ++ " instead"
  | .onErrOtherInvalid exType name step val => exType.render ++ " for " ++ name ++ " has " ++ quoted "onErr.any" ++ " value at step " ++ toString step ++ " with an invalid error directive: " ++ val
  | .onErrCodeInvalid exType name step code val => exType.render ++ " for " ++ name ++ " has " ++ quoted "onErr.code" ++ " value at step " ++ toString step ++ " with an invalid error directive for code " ++ toString code ++ ": " ++ val
  | .forEachMissingAs pos exType name => "ForEach at position " ++ toString pos ++ " for " ++ exType.render ++ " " ++ name ++ " is missing " ++ quoted "as" ++ " value"
  | .forEachFnAsWith pos exType name => "ForEach at position " ++ toString pos ++ " for " ++ exType.render ++ " " ++ name ++ " should not have " ++ quoted "fn.as" ++ " or " ++ quoted "fn.with" ++ " "

/-- One tab-indented rendered line per problem, concatenated in order (the
loop body of Go `problems.render`). -/
def renderedLines : List Problem → String
  | [] => ""
  | p :: rest => ("\n\t" ++ p.render) ++ renderedLines rest

/-- Go `problems.render`: `nil` for an empty collector, otherwise one error
whose text is the count header followed by one tab-indented line per problem,
in discovery order. -/
def problemsRender (ps : List Problem) : Option String :=
  match ps with
  | [] => none
  | _ =>
    some (ps.foldl (fun text e => text ++ ("\n\t" ++ e.render))
      ("found " ++ toString ps.length ++ " problems:"))

/-- Go `strings.Split(w, ": ")` over a character list: split around each
non-overlapping, left-to-right instance of the two-character separator
`": "` (colon, space). -/
def splitCSAux : List Char → List Char → List (List Char)
  | [], acc => [acc.reverse]
  | ':' :: ' ' :: rest, acc => acc.reverse :: splitCSAux rest []
  | c :: rest, acc => splitCSAux rest (c :: acc)

/-- Go `strings.Split(w, ": ")`. -/
def splitColonSpace (w : String) : List String :=
  (splitCSAux w.data []).map String.mk

/-- The Go parse error text of `CallableFn.ParseWith` (typo reproduced). -/
def wrongFormatMsg (n : Nat) : String :=
  "with value has wrong format: parsed " ++ toString n ++ " parts seperated by : , expected 2"

/-- The loop body of Go `ParseWith`: walk the raw `With` entries building
`DesiredState`.  The Go code allocates the full-length slice up front and
returns at the first malformed entry, so entries from the failure point on
keep the zero value `Alias{}`. -/
def parseWithAux : List String → List Alias × Option String
  | [] => ([], none)
  | w :: rest =>
    let parts := splitColonSpace w
    if parts.length = 2 then
      let res := parseWithAux rest
      ({ Key := parts.getD 1 "", Alias := parts.getD 0 "" } :: res.1, res.2)
    else
      ({ Key := "", Alias := "" } :: rest.map (fun _ => { Key := "", Alias := "" }),
        some (wrongFormatMsg parts.length))

/-- Go `(c *CallableFn) ParseWith`: returns the possibly mutated receiver
(the `DesiredState` cache write) together with the Go return value
(`nil, err` on a malformed entry, the cached slice otherwise). -/
def CallableFn.ParseWith (c : CallableFn) : CallableFn × Except String (List Alias) :=
  if 0 < c.DesiredState.length then (c, Except.ok c.DesiredState)
  else
    let res := parseWithAux c.With
    match res.2 with
    | some msg => ({ c with DesiredState := res.1 }, Except.error msg)
    | none => ({ c with DesiredState := res.1 }, Except.ok res.1)

/-- The state keys a `CallableFn` is checked against after its `ParseWith`
call inside `validateSteps` (the keys of the post-call `DesiredState`). -/
def CallableFn.referencedKeys (c : CallableFn) : List String :=
  (c.ParseWith).1.DesiredState.map Alias.Key

/-- The state key a validated `CallableFn` produces: `as` if set, else `fn`
(`key := fn.Fn; if fn.As != "" { key = fn.As }`). -/
def CallableFn.producedKey (c : CallableFn) : String :=
  if c.As = "" then c.Fn else c.As

/-- Go `(e *Executable) IsFn`. -/
def Executable.IsFn (e : Executable) : Bool :=
  decide (e.callableFn.Fn ≠ "") && e.Group.isNone && e.ForEach.isNone

/-- Go `(e *Executable) IsGroup`: `Fn` empty, `Group` non-nil and non-empty,
no `ForEach`. -/
def Executable.IsGroup (e : Executable) : Bool :=
  decide (e.callableFn.Fn = "") &&
    (match e.Group with
      | some l => decide (0 < l.length)
      | none => false) &&
    e.ForEach.isNone

/-- Go `(e *Executable) IsForEach`. -/
def Executable.IsForEach (e : Executable) : Bool :=
  e.ForEach.isSome && decide (e.callableFn.Fn = "") && e.Group.isNone

/-- The `onErr` checks of the `validateFn` closure in `validateSteps`,
in Go source order: the `any` branch, the `other` branch, then the per-code
loop (Go iterates the `Code` map in unspecified order; list order here). -/
def onErrProblems (exType : executableType) (name : String) (j : Nat) (oe : FnOnErr) : List Problem :=
  (if 0 < oe.Code.length ∧ oe.Any ≠ "" then [Problem.onErrAnyWithCodes exType name j]
   else if oe.Any ≠ "" then
     (if oe.Any ≠ "continue" ∧ oe.Any ≠ "return" then [Problem.onErrAnyInvalid exType name j oe.Any] else [])
   else []) ++
  (if oe.Code.length = 0 ∧ oe.Other ≠ "" then [Problem.onErrOtherWithoutCodes exType name j]
   else if oe.Other ≠ "" then
     (if oe.Other ≠ "continue" ∧ oe.Other ≠ "return" then [Problem.onErrOtherInvalid exType name j oe.Other] else [])
   else []) ++
  oe.Code.filterMap (fun cv =>
    if cv.2 ≠ "return" ∧ cv.2 ≠ "continue" then some (Problem.onErrCodeInvalid exType name j cv.1 cv.2) else none)

/-- The `validateFn` closure of Go `validateSteps`, applied to one
`CallableFn` (passed by value in Go, so the `ParseWith` cache write stays
local): returns the problems it appends, in order, and the state key it
appends to `fnsToAdd`. -/
def validateFn (exType : executableType) (name : String) (fns fullState : List String) (j : Nat) (fn : CallableFn) : List Problem × String :=
  let p1 := if fn.Fn ∈ fns then [] else [Problem.fnNotExist exType name j fn.Fn]
  let pw := fn.ParseWith
  let p2 := match pw.2 with
    | Except.error msg => [Problem.invalidWith exType name j msg]
    | Except.ok _ => []
  let p3 := pw.1.DesiredState.filterMap (fun d =>
    if d.Key ∈ fullState then none else some (Problem.keyNotAvailable exType name j d.Key))
  let p4 := match fn.OnErr with
    | none => []
    | some oe => onErrProblems exType name j oe
  (p1 ++ p2 ++ p3 ++ p4, fn.producedKey)

/-- One iteration of the step loop of Go `validateSteps` at index `j` against
the pre-step state set `fullState`: the problems appended and the keys in
`fnsToAdd` at the loop's end. -/
def stepOutputs (exType : executableType) (name : String) (fns fullState : List String) (j : Nat) (s : Executable) : List Problem × List String :=
  let shapeP := if s.IsFn = false ∧ s.IsGroup = false ∧ s.IsForEach = false
    then [Problem.stepNotFnGroupForEach j exType name] else []
  if s.IsFn then
    let r := validateFn exType name fns fullState j s.callableFn
    (shapeP ++ r.1, [r.2])
  else if s.IsGroup then
    let rs := (s.Group.getD []).map (validateFn exType name fns fullState j)
    (shapeP ++ (rs.map Prod.fst).flatten, rs.map Prod.snd)
  else if s.IsForEach then
    match s.ForEach with
    | some fe =>
      let p1 := if fe.As = "" then [Problem.forEachMissingAs j exType name] else []
      let p2 := if fe.Fn.As ≠ "" ∨ fe.Fn.With ≠ [] then [Problem.forEachFnAsWith j exType name] else []
      let r := validateFn exType name fns fullState j fe.Fn
      (shapeP ++ p1 ++ p2 ++ r.1, [fe.As])
    | none => (shapeP, [])
  else (shapeP, [])

/-- The step loop of Go `validateSteps`, with `j` the index of the first
remaining step and `fullState` the accumulated state set. -/
def validateStepsAux (exType : executableType) (name : String) (fns : List String) : List Executable → Nat → List String → List Problem × List String
  | [], _, fullState => ([], fullState)
  | s :: rest, j, fullState =>
    let r := stepOutputs exType name fns fullState j s
    let res2 := validateStepsAux exType name fns rest (j + 1) (fullState ++ r.2)
    (r.1 ++ res2.1, res2.2)

/-- Go `validateSteps`: problems appended to the collector and the final
`fullState` set. -/
def validateSteps (exType : executableType) (name : String) (steps : List Executable) (initialState fns : List String) : List Problem × List String :=
  validateStepsAux exType name fns steps 0 initialState

/-- The `Runnables` loop of Go `Directive.Validate`: duplicate detection,
name/namespace checks, and registration of the known-function set (`continue`
skips the rest of an iteration; a default-namespace runnable registers both
its bare and namespaced form). -/
def runnablesAux : Nat → List String → List Runnable → List Problem × List String
  | _, fns, [] => ([], fns)
  | i, fns, f :: rest =>
    let namespaced := f.Namespace ++ "#" ++ f.Name
    if namespaced ∈ fns then
      let r := runnablesAux (i + 1) fns rest
      (Problem.duplicateFn namespaced :: r.1, r.2)
    else if f.Name ∈ fns then
      let r := runnablesAux (i + 1) fns rest
      (Problem.duplicateFn namespaced :: r.1, r.2)
    else if f.Name = "" then
      let r := runnablesAux (i + 1) fns rest
      (Problem.missingName i :: r.1, r.2)
    else
      let nsP := if f.Namespace = "" then [Problem.missingNamespace i] else []
      let fns2 := if f.Namespace = NamespaceDefault
        then fns ++ [f.Name, namespaced]
        else fns ++ [namespaced]
      let r := runnablesAux (i + 1) fns2 rest
      (nsP ++ r.1, r.2)

/-- The handler loop body of Go `Directive.Validate` for one handler:
input checks, step validation, and the response/last-step checks
(`continue` on an empty step list). -/
def handlerProblems (fns : List String) (h : Handler) : List Problem :=
  let p1 := if h.Input.«Type» = "" then [Problem.handlerMissingType h.Input.Resource] else []
  let p2 := if h.Input.Resource = "" then [Problem.handlerMissingResource h.Input.Resource] else []
  let p3 := if h.Input.«Type» = InputTypeRequest ∧ h.Input.Method = ""
    then [Problem.handlerMissingMethod h.Input.Resource] else []
  if h.Steps.length = 0 then p1 ++ p2 ++ p3 ++ [Problem.handlerMissingSteps h.Input.Resource]
  else
    let name := h.Input.Method ++ " " ++ h.Input.Resource
    let r := validateSteps executableType.handler name h.Steps [] fns
    let lastStep := h.Steps.getLastD default
    let p4 :=
      if h.Response = "" ∧ lastStep.IsGroup then [Problem.groupLastNoResponse name]
      else if h.Response ≠ "" ∧ h.Response ∉ r.2 then [Problem.responseKeyNotExist name h.Response]
      else []
    p1 ++ p2 ++ p3 ++ r.1 ++ p4

/-- The schedule loop body of Go `Directive.Validate` for the schedule at
position `i` (`continue` on an empty name or empty step list; the schedule's
`State` keys seed the initial state set). -/
def scheduleProblems (fns : List String) (i : Nat) (s : Schedule) : List Problem :=
  if s.Name = "" then [Problem.scheduleNoName i]
  else if s.Steps.length = 0 then [Problem.scheduleMissingSteps s.Name]
  else
    let pE := if s.Every.Seconds = 0 ∧ s.Every.Minutes = 0 ∧ s.Every.Hours = 0 ∧ s.Every.Days = 0
      then [Problem.scheduleNoEvery s.Name] else []
    let initialState := s.State.map Prod.fst
    pE ++ (validateSteps executableType.schedule s.Name s.Steps initialState fns).1

/-- The document-level checks at the top of Go `Directive.Validate`
(`sv` stands in for the external predicate `semver.IsValid`). -/
def directiveHeadProblems (sv : String → Bool) (d : Directive) : List Problem :=
  (if d.Identifier = "" then [Problem.identifierMissing] else []) ++
  (if sv d.AppVersion then [] else [Problem.appVersionInvalid]) ++
  (if sv d.AtmoVersion then [] else [Problem.atmoVersionInvalid]) ++
  (if d.Runnables.length < 1 then [Problem.noFunctions] else [])

/-- Everything Go `Directive.Validate` appends to its problem collector, in
discovery order. -/
def Directive.validateProblems (sv : String → Bool) (d : Directive) : List Problem :=
  let r := runnablesAux 0 [] d.Runnables
  directiveHeadProblems sv d ++ r.1 ++
  (d.Handlers.map (handlerProblems r.2)).flatten ++
  (d.Schedules.enum.map (fun p => scheduleProblems r.2 p.1 p.2)).flatten

/-- Go `Directive.Validate`: `problems.render()` over the collected problems
(`none` is Go's nil error). -/
def Directive.Validate (sv : String → Bool) (d : Directive) : Option String :=
  problemsRender (d.validateProblems sv)

/-- Go `Directive.Validate` as a state-passing function on its receiver.
Every write the Go method performs lands in local state only: the loops
iterate by value (`range` copies each `Handler`, `Schedule` and `Executable`),
`validateFn` takes its `CallableFn` by value so the `ParseWith` cache write
mutates that copy, the `fullState`/`fns` maps are freshly allocated locals,
and the `fqfns` cache is never touched.  Hence the receiver after the call is
the receiver before it. -/
def Directive.ValidateMut (sv : String → Bool) (d : Directive) : Directive × Option String :=
  (d, d.Validate sv)

/-- Go `Directive.fqfnForFunc`. -/
def Directive.fqfnForFunc (d : Directive) (ns fn : String) : String :=
  ns ++ "#" ++ fn ++ "@" ++ d.AppVersion

/-- Insert into the modelled Go `map[string]string` (new entry shadows any
older one). -/
def mapSet (m : List (String × String)) (k v : String) : List (String × String) :=
  (k, v) :: m

/-- Lookup in the modelled Go `map[string]string`. -/
def mapGet (m : List (String × String)) (k : String) : Option String :=
  (m.find? (fun p => p.1 == k)).map Prod.snd

/-- The loop body of Go `Directive.calculateFQFNs` for one runnable: register
the namespaced form, and for default-namespace runnables also the bare name
(written first, as in the Go source); every write carries
`fqfnForFunc(namespace, name)` = `namespace#name@appVersion`. -/
def fqfnStep (av : String) (m : List (String × String)) (fn : Runnable) : List (String × String) :=
  let namespaced := fn.Namespace ++ "#" ++ fn.Name
  if fn.Namespace = NamespaceDefault then
    mapSet (mapSet m fn.Name (fn.Namespace ++ "#" ++ fn.Name ++ "@" ++ av)) namespaced
      (fn.Namespace ++ "#" ++ fn.Name ++ "@" ++ av)
  else
    mapSet m namespaced (fn.Namespace ++ "#" ++ fn.Name ++ "@" ++ av)

/-- The map built by Go `Directive.calculateFQFNs`. -/
def Directive.fqfnMap (d : Directive) : List (String × String) :=
  d.Runnables.foldl (fqfnStep d.AppVersion) []

/-- Whether one runnable's registration in `calculateFQFNs` writes the given
lookup key: its bare name (default namespace only) or its namespaced form. -/
def touches (g : Runnable) (key : String) : Bool :=
  (decide (g.Namespace = NamespaceDefault) && decide (key = g.Name)) ||
    decide (key = g.Namespace ++ "#" ++ g.Name)

/-- Go `Directive.calculateFQFNs` (sets the cache field on the receiver). -/
def Directive.calculateFQFNs (d : Directive) : Directive :=
  { d with fqfns := some d.fqfnMap }

/-- Go `Directive.FQFN`: computes the cache on first use, then looks the name
up, failing with the Go not-found message.  Returned together with the
post-call receiver (the method can mutate the cache). -/
def Directive.FQFN (d : Directive) (fn : String) : Directive × Except String String :=
  let d2 := if d.fqfns.isNone then d.calculateFQFNs else d
  match mapGet (d2.fqfns.getD []) fn with
  | some fqfn => (d2, Except.ok fqfn)
  | none => (d2, Except.error ("fn " ++ fn ++ " does not exist"))

/-- Go `Schedule.NumberOfSeconds`. -/
def Schedule.NumberOfSeconds (s : Schedule) : Int :=
  let seconds := s.Every.Seconds
  let minutes := 60 * s.Every.Minutes
  let hours := 60 * 60 * s.Every.Hours
  let days := 60 * 60 * 24 * s.Every.Days
  seconds + minutes + hours + days

/-- The `CallableFn`s the step loop runs `validateFn` on for one step
(the single call, every group member, or the for-each's inner call). -/
def Executable.validatedFns (s : Executable) : List CallableFn :=
  if s.IsFn then [s.callableFn]
  else if s.IsGroup then s.Group.getD []
  else if s.IsForEach then
    match s.ForEach with
    | some fe => [fe.Fn]
    | none => []
  else []

/-- The state keys one step adds to `fullState` after it is processed. -/
def Executable.producedKeys (s : Executable) : List String :=
  if s.IsFn then [s.callableFn.producedKey]
  else if s.IsGroup then (s.Group.getD []).map CallableFn.producedKey
  else if s.IsForEach then
    match s.ForEach with
    | some fe => [fe.As]
    | none => []
  else []

/-- The state set after processing a list of steps from a given initial
state set. -/
def stateAfterSteps (init : List String) (steps : List Executable) : List String :=
  steps.foldl (fun acc s => acc ++ s.producedKeys) init

/-- Problems produced inside the step loop (`validateSteps`), as opposed to
document-, runnable-, handler- or schedule-level problems. -/
def Problem.isStepProblem : Problem → Bool
  | .stepNotFnGroupForEach _ _ _ => true
  | .fnNotExist _ _ _ _ => true
  | .invalidWith _ _ _ _ => true
  | .keyNotAvailable _ _ _ _ => true
  | .onErrAnyWithCodes _ _ _ => true
  | .onErrAnyInvalid _ _ _ _ => true
  | .onErrOtherWithoutCodes _ _ _ => true
  | .onErrOtherInvalid _ _ _ _ => true
  | .onErrCodeInvalid _ _ _ _ _ => true
  | .forEachMissingAs _ _ _ => true
  | .forEachFnAsWith _ _ _ => true
  | _ => false

/-- Recognizer for the duplicate-runnable problem. -/
def Problem.isDuplicateFn : Problem → Bool
  | .duplicateFn _ => true
  | _ => false

/-- The five `onErr` problem kinds. -/
def Problem.isOnErrProblem : Problem → Bool
  | .onErrAnyWithCodes _ _ _ => true
  | .onErrAnyInvalid _ _ _ _ => true
  | .onErrOtherWithoutCodes _ _ _ => true
  | .onErrOtherInvalid _ _ _ _ => true
  | .onErrCodeInvalid _ _ _ _ _ => true
  | _ => false

/-- True when the string contains no number-sign character. -/
def noHash (s : String) : Bool :=
  s.data.all (fun c => c ≠ '#')

/-- A `CallableFn` whose checks inside `validateFn` all pass against the
known-function set `fns` and the state set `st`: the fn exists, the binding
cache is fresh, the `with` entries parse, every referenced key is available,
and there is no `onErr` policy. -/
def CallableFn.passesChecks (fn : CallableFn) (fns st : List String) : Prop :=
  fn.Fn ∈ fns ∧ fn.DesiredState = [] ∧ (parseWithAux fn.With).2 = none ∧
    (∀ k ∈ fn.referencedKeys, k ∈ st) ∧ fn.OnErr = none

instance (fn : CallableFn) (fns st : List String) : Decidable (fn.passesChecks fns st) := by
  unfold CallableFn.passesChecks
  infer_instance

/-! ### Concrete documents used by counterexamples and witnesses -/

/-- A semantic-version predicate accepting everything (stands in for
`semver.IsValid` at concrete inputs). -/
def svTrue : String → Bool := fun _ => true

/-- A bare single-call `CallableFn` with the given name and `with` list. -/
def simpleFn (fn : String) (w : List String) : CallableFn :=
  { Fn := fn, As := "", With := w, OnErr := none, DesiredState := [] }

/-- A single-call step. -/
def fnStep (fn : String) (w : List String) : Executable :=
  { callableFn := simpleFn fn w, Group := none, ForEach := none }

/-- A well-formed base document: one default-namespace runnable `fetch`,
handlers/schedules to be filled in per test. -/
def baseDir (hs : List Handler) (ss : List Schedule) : Directive :=
  { Identifier := "demo", AppVersion := "v0.1.0", AtmoVersion := "v0.1.0",
    Runnables := [{ Name := "fetch", Namespace := "default" }],
    Handlers := hs, Schedules := ss, fqfns := none }

/-- The handler of the spec's worked example: `GET /x` with a single step. -/
def demoHandler (steps : List Executable) : Handler :=
  { Input := { «Type» := "request", Method := "GET", Resource := "/x" },
    Steps := steps, Response := "" }

/-- The document of the spec's malformed-`with` example, with the raw `with`
entry as a parameter. -/
def c8dir (w : String) : Directive :=
  baseDir [demoHandler [fnStep "fetch" [w]]] []

/-- A document whose only schedule has an empty name but a step referencing
an undeclared function. -/
def c2dir : Directive :=
  baseDir []
    [{ Name := "", Every := { Seconds := 0, Minutes := 0, Hours := 0, Days := 0 },
       State := [], Steps := [fnStep "nofn" []] }]

/-- A document whose schedule has summed interval `-60 + 60·1 = 0` without
all `every` fields being zero. -/
def c3dir : Directive :=
  baseDir []
    [{ Name := "s", Every := { Seconds := -60, Minutes := 1, Hours := 0, Days := 0 },
       State := [], Steps := [fnStep "fetch" []] }]

/-- The schedule of `c3dir`. -/
def c3sched : Schedule :=
  { Name := "s", Every := { Seconds := -60, Minutes := 1, Hours := 0, Days := 0 },
    State := [], Steps := [fnStep "fetch" []] }

/-- A `CallableFn` carrying an `onErr` policy with per-code directives and an
invalid `any` value. -/
def c4fn : CallableFn :=
  { Fn := "f", As := "", With := [],
    OnErr := some { Code := [(500, "continue")], Any := "bogus", Other := "" },
    DesiredState := [] }

/-- Two runnables with the same bare name, the non-default-namespace one
first. -/
def c5dir : Directive :=
  { Identifier := "demo", AppVersion := "v0.1.0", AtmoVersion := "v0.1.0",
    Runnables := [{ Name := "foo", Namespace := "other" }, { Name := "foo", Namespace := "default" }],
    Handlers := [], Schedules := [], fqfns := none }

/-- A document with a single default-namespace runnable `foo`. -/
def c6dir : Directive :=
  { Identifier := "demo", AppVersion := "v0.1.0", AtmoVersion := "v0.1.0",
    Runnables := [{ Name := "foo", Namespace := "default" }],
    Handlers := [], Schedules := [], fqfns := none }

/-- A for-each step whose inner call illegally declares an alias. -/
def c7step : Executable :=
  { callableFn := { Fn := "", As := "", With := [], OnErr := none, DesiredState := [] },
    Group := none,
    ForEach := some { In := "xs", Fn := { Fn := "fetch", As := "bad", With := [], OnErr := none, DesiredState := [] }, As := "each" } }

/-- Steps where the first produces `a` and the second consumes it. -/
def c1steps : List Executable :=
  [fnStep "f1" [], fnStep "f2" ["x: f1"]]

/-- Steps where step 1 re-produces the seed key `k` and step 2 references
it. -/
def c10steps : List Executable :=
  [fnStep "k" [], fnStep "f2" ["x: k"]]

/-! ### Helper lemmas: state-set bookkeeping of the step loop -/

theorem validateFn_snd (ex : executableType) (name : String) (fns st : List String) (j : Nat) (fn : CallableFn) :
    (validateFn ex name fns st j fn).2 = fn.producedKey := by
  unfold validateFn
  cases h : fn.ParseWith.2 <;> simp [h]

theorem stepOutputs_snd (ex : executableType) (name : String) (fns st : List String) (j : Nat) (s : Executable) :
    (stepOutputs ex name fns st j s).2 = s.producedKeys := by
  unfold stepOutputs Executable.producedKeys
  cases hF : s.IsFn <;> cases hG : s.IsGroup <;> cases hFE : s.IsForEach <;>
    cases hE : s.ForEach <;>
      simp [hF, hG, hFE, hE, validateFn_snd, Executable.IsForEach] at *

theorem stateAfterSteps_nil (init : List String) : stateAfterSteps init [] = init := rfl

theorem stateAfterSteps_cons (init : List String) (s : Executable) (l : List Executable) :
    stateAfterSteps init (s :: l) = stateAfterSteps (init ++ s.producedKeys) l := rfl

theorem validateStepsAux_snd (ex : executableType) (name : String) (fns : List String) :
    ∀ (steps : List Executable) (j : Nat) (st : List String),
      (validateStepsAux ex name fns steps j st).2 = stateAfterSteps st steps := by
  intro steps
  induction steps with
  | nil => intro j st; rfl
  | cons s rest ih =>
    intro j st
    simp [validateStepsAux, ih, stepOutputs_snd, stateAfterSteps_cons]

theorem validateSteps_snd (ex : executableType) (name : String) (steps : List Executable) (init fns : List String) :
    (validateSteps ex name steps init fns).2 = stateAfterSteps init steps :=
  validateStepsAux_snd ex name fns steps 0 init

theorem mem_stateAfterSteps (k : String) :
    ∀ (l : List Executable) (init : List String),
      k ∈ stateAfterSteps init l ↔ k ∈ init ∨ ∃ s ∈ l, k ∈ s.producedKeys := by
  intro l
  induction l with
  | nil => intro init; simp [stateAfterSteps_nil]
  | cons s rest ih =>
    intro init
    rw [stateAfterSteps_cons, ih]
    simp [List.mem_append, or_assoc]

/-! ### Helper lemmas: where dependency defects come from -/

theorem keyNotAvailable_not_mem_onErrProblems (ex ex' : executableType) (name name' : String) (j j' : Nat) (k : String) (oe : FnOnErr) :
    Problem.keyNotAvailable ex name j k ∉ onErrProblems ex' name' j' oe := by
  unfold onErrProblems
  intro h
  simp only [List.mem_append, List.mem_filterMap] at h
  rcases h with (h | h) | h
  · split_ifs at h <;> simp_all
  · split_ifs at h <;> simp_all
  · obtain ⟨cv, _, hcv⟩ := h
    split_ifs at hcv <;> simp_all

theorem keyNotAvailable_mem_validateFn (ex : executableType) (name : String) (fns st : List String) (j j' : Nat) (k : String) (fn : CallableFn) :
    Problem.keyNotAvailable ex name j' k ∈ (validateFn ex name fns st j fn).1 ↔
      j' = j ∧ k ∉ st ∧ k ∈ fn.referencedKeys := by
  unfold validateFn CallableFn.referencedKeys
  simp only [List.mem_append]
  constructor
  · rintro (((h | h) | h) | h)
    · split_ifs at h <;> simp_all
    · rcases hpw : fn.ParseWith.2 with _ | _ <;> simp [hpw] at h
    · simp only [List.mem_filterMap] at h
      obtain ⟨d, hd, hsome⟩ := h
      split_ifs at hsome with hk
      simp at hsome
      obtain ⟨hj, hkey⟩ := hsome
      subst hj; subst hkey
      exact ⟨rfl, hk, List.mem_map_of_mem Alias.Key hd⟩
    · cases hoe : fn.OnErr with
      | none => simp [hoe] at h
      | some oe =>
        rw [hoe] at h
        exact absurd h (keyNotAvailable_not_mem_onErrProblems ex ex name name j' j k oe)
  · rintro ⟨hj, hst, hk⟩
    subst hj
    obtain ⟨d, hd, hdk⟩ := List.mem_map.mp hk
    refine Or.inl (Or.inr (List.mem_filterMap.mpr ⟨d, hd, ?_⟩))
    rw [if_neg (by rw [hdk]; exact hst), hdk]

theorem keyNotAvailable_mem_stepOutputs (ex : executableType) (name : String) (fns st : List String) (j j' : Nat) (k : String) (s : Executable) :
    Problem.keyNotAvailable ex name j' k ∈ (stepOutputs ex name fns st j s).1 ↔
      j' = j ∧ k ∉ st ∧ ∃ fn ∈ s.validatedFns, k ∈ fn.referencedKeys := by
  unfold stepOutputs Executable.validatedFns
  cases hF : s.IsFn <;> cases hG : s.IsGroup <;> cases hFE : s.IsForEach <;>
    cases hE : s.ForEach <;>
      simp_all [Executable.IsForEach, keyNotAvailable_mem_validateFn, List.mem_flatten] <;>
        aesop

theorem keyNotAvailable_mem_validateStepsAux (ex : executableType) (name : String) (fns : List String) (j : Nat) (k : String) :
    ∀ (steps : List Executable) (j0 : Nat) (st : List String),
      Problem.keyNotAvailable ex name j k ∈ (validateStepsAux ex name fns steps j0 st).1 ↔
        ∃ i s', steps[i]? = some s' ∧ j = j0 + i ∧
          k ∉ stateAfterSteps st (steps.take i) ∧
          ∃ fn ∈ s'.validatedFns, k ∈ fn.referencedKeys := by
  intro steps
  induction steps with
  | nil => intro j0 st; simp [validateStepsAux]
  | cons s rest ih =>
    intro j0 st
    unfold validateStepsAux
    simp only [List.mem_append, keyNotAvailable_mem_stepOutputs, stepOutputs_snd, ih]
    constructor
    · rintro (⟨hj, hst, hfn⟩ | ⟨i, s', hget, hj, hst, hfn⟩)
      · exact ⟨0, s, by simpa using ⟨hj, hst, hfn⟩⟩
      · refine ⟨i + 1, s', by simpa using hget, by omega, ?_, hfn⟩
        simpa [stateAfterSteps_cons] using hst
    · rintro ⟨i, s', hget, hj, hst, hfn⟩
      cases i with
      | zero =>
        simp at hget
        subst hget
        exact Or.inl ⟨by omega, by simpa using hst, hfn⟩
      | succ i' =>
        refine Or.inr ⟨i', s', by simpa using hget, by omega, ?_, hfn⟩
        simpa [stateAfterSteps_cons] using hst

theorem keyNotAvailable_mem_validateSteps (ex : executableType) (name : String) (fns init : List String) (j : Nat) (k : String) (steps : List Executable) :
    Problem.keyNotAvailable ex name j k ∈ (validateSteps ex name steps init fns).1 ↔
      ∃ s', steps[j]? = some s' ∧
        k ∉ stateAfterSteps init (steps.take j) ∧
        ∃ fn ∈ s'.validatedFns, k ∈ fn.referencedKeys := by
  unfold validateSteps
  rw [keyNotAvailable_mem_validateStepsAux]
  constructor
  · rintro ⟨i, s', hget, hj, hst, hfn⟩
    have : i = j := by omega
    subst this
    exact ⟨s', hget, hst, hfn⟩
  · rintro ⟨s', hget, hst, hfn⟩
    exact ⟨j, s', hget, by omega, hst, hfn⟩

theorem mem_take_of_getElem? (steps : List Executable) (j j₂ : Nat) (sj : Executable)
    (h : steps[j]? = some sj) (hlt : j < j₂) : sj ∈ steps.take j₂ := by
  have hget : (steps.take j₂)[j]? = some sj := by
    rw [List.getElem?_take, if_pos hlt, h]
  exact List.getElem?_mem hget

theorem validateFn_eq_nil (ex : executableType) (name : String) (fns st : List String) (j : Nat) (fn : CallableFn)
    (h : fn.passesChecks fns st) : (validateFn ex name fns st j fn).1 = [] := by
  obtain ⟨h1, h2, h3, h4, h5⟩ := h
  have hpw : fn.ParseWith =
      ({ fn with DesiredState := (parseWithAux fn.With).1 }, Except.ok (parseWithAux fn.With).1) := by
    unfold CallableFn.ParseWith
    rw [h2]
    simp only [List.length_nil, Nat.lt_irrefl, if_false]
    rw [h3]
  unfold validateFn
  rw [hpw, if_pos h1, h5]
  simp only [List.append_nil, List.nil_append]
  apply List.filterMap_eq_nil_iff.mpr
  intro d hd
  rw [if_pos]
  apply h4
  unfold CallableFn.referencedKeys
  rw [hpw]
  exact List.mem_map_of_mem Alias.Key hd

/-- Claim C1: within one handler or schedule, a `with` binding of a fn
validated at step `j` draws a dependency defect exactly when its source key is
not in the state set accumulated before step `j`, and that state set is
exactly the seed state plus the keys produced by the strictly earlier steps
(so same-step keys — group members included — and later-step keys never
satisfy a binding, and nothing outside `init` and `steps` is ever visible). -/
theorem c1_with_binding_dependency_iff
    (ex : executableType) (name : String) (fns init : List String)
    (steps : List Executable) (j : Nat) (k : String) (sj : Executable) (fn : CallableFn)
    (hj : steps[j]? = some sj) (hfn : fn ∈ sj.validatedFns) (hk : k ∈ fn.referencedKeys) :
    (Problem.keyNotAvailable ex name j k ∉ (validateSteps ex name steps init fns).1 ↔
        k ∈ stateAfterSteps init (steps.take j)) ∧
    (k ∈ stateAfterSteps init (steps.take j) ↔
        k ∈ init ∨ ∃ s ∈ steps.take j, k ∈ s.producedKeys) := by
  constructor
  · rw [keyNotAvailable_mem_validateSteps]
    constructor
    · intro hnot
      by_contra hcon
      exact hnot ⟨sj, hj, hcon, fn, hfn, hk⟩
    · rintro hmem ⟨s', hget, hst, hex⟩
      exact hst hmem
  · exact mem_stateAfterSteps k (steps.take j) init

theorem c1_witness :
    Problem.keyNotAvailable executableType.handler "n" 1 "f1" ∉
      (validateSteps executableType.handler "n" c1steps [] ["f1", "f2"]).1 :=
  (c1_with_binding_dependency_iff executableType.handler "n" ["f1", "f2"] [] c1steps 1 "f1"
    (fnStep "f2" ["x: f1"]) (simpleFn "f2" ["x: f1"]) rfl (by decide) (by decide)).1.mpr (by decide)

/-- Claim C10: producing a state key that is already available is never a
defect — a step that (re-)produces `k` keeps `k` in the state set at every
later point and in the final state set, later bindings on `k` never draw a
dependency defect, and if the re-defining step is a single call passing all
of `validateFn`'s checks the step contributes no problem at all. -/
theorem c10_reproduced_key_no_defect
    (ex : executableType) (name : String) (fns init : List String)
    (steps : List Executable) (j : Nat) (k : String) (sj : Executable)
    (hj : steps[j]? = some sj) (hprod : k ∈ sj.producedKeys) :
    (∀ j₂, j < j₂ → k ∈ stateAfterSteps init (steps.take j₂)) ∧
    k ∈ (validateSteps ex name steps init fns).2 ∧
    (∀ j₂, j < j₂ →
      Problem.keyNotAvailable ex name j₂ k ∉ (validateSteps ex name steps init fns).1) ∧
    (sj.IsFn = true → sj.callableFn.passesChecks fns (stateAfterSteps init (steps.take j)) →
      (stepOutputs ex name fns (stateAfterSteps init (steps.take j)) j sj).1 = []) := by
  have havail : ∀ j₂, j < j₂ → k ∈ stateAfterSteps init (steps.take j₂) := by
    intro j₂ hlt
    exact (mem_stateAfterSteps k (steps.take j₂) init).mpr
      (Or.inr ⟨sj, mem_take_of_getElem? steps j j₂ sj hj hlt, hprod⟩)
  refine ⟨havail, ?_, ?_, ?_⟩
  · rw [validateSteps_snd]
    exact (mem_stateAfterSteps k steps init).mpr (Or.inr ⟨sj, List.getElem?_mem hj, hprod⟩)
  · intro j₂ hlt
    rw [keyNotAvailable_mem_validateSteps]
    rintro ⟨s', hget, hst, hex⟩
    exact hst (havail j₂ hlt)
  · intro hIsFn hpass
    unfold stepOutputs
    rw [hIsFn]
    simp only [hIsFn, Bool.true_eq_false, false_and, if_false, if_true,
      validateFn_eq_nil ex name fns (stateAfterSteps init (steps.take j)) j sj.callableFn hpass,
      List.append_nil, List.nil_append]

theorem c10_witness :
    "k" ∈ (validateSteps executableType.handler "n" c10steps ["k"] ["k", "f2"]).2 ∧
    Problem.keyNotAvailable executableType.handler "n" 1 "k" ∉
      (validateSteps executableType.handler "n" c10steps ["k"] ["k", "f2"]).1 ∧
    (stepOutputs executableType.handler "n" ["k", "f2"]
      (stateAfterSteps ["k"] (c10steps.take 0)) 0 (fnStep "k" [])).1 = [] := by
  have h := c10_reproduced_key_no_defect executableType.handler "n" ["k", "f2"] ["k"]
    c10steps 0 "k" (fnStep "k" []) rfl (by decide)
  exact ⟨h.2.1, h.2.2.1 1 (by decide), h.2.2.2 (by decide) (by decide)⟩

/-- Claim C7: a for-each step is validated by flagging a shape defect exactly
when the inner call declares an alias or any bindings, flagging a missing-`as`
defect exactly when the for-each's own `as` is empty, validating the inner
call exactly like a single call (same `validateFn`, same pre-step state), and
adding the for-each's own `as` value as the single produced key — not the
inner call's name or alias. -/
theorem c7_forEach_validation
    (ex : executableType) (name : String) (fns st : List String) (j : Nat)
    (s : Executable) (fe : ForEach)
    (hfe : s.ForEach = some fe) (hfn : s.callableFn.Fn = "") (hg : s.Group = none) :
    stepOutputs ex name fns st j s =
      ((if fe.As = "" then [Problem.forEachMissingAs j ex name] else []) ++
       (if fe.Fn.As ≠ "" ∨ fe.Fn.With ≠ [] then [Problem.forEachFnAsWith j ex name] else []) ++
       (validateFn ex name fns st j fe.Fn).1,
       [fe.As]) := by
  have hF : s.IsFn = false := by simp [Executable.IsFn, hfn]
  have hG : s.IsGroup = false := by simp [Executable.IsGroup, hg]
  have hFE : s.IsForEach = true := by simp [Executable.IsForEach, hfe, hfn, hg]
  unfold stepOutputs
  rw [hfe]
  simp [hF, hG, hFE]

theorem c7_witness :
    stepOutputs executableType.handler "n" ["fetch"] [] 0 c7step =
      ([Problem.forEachFnAsWith 0 executableType.handler "n"], ["each"]) := by
  rw [c7_forEach_validation executableType.handler "n" ["fetch"] [] 0 c7step
    { In := "xs", Fn := { Fn := "fetch", As := "bad", With := [], OnErr := none, DesiredState := [] }, As := "each" }
    rfl rfl rfl]
  decide

/-! ### Helper lemmas: classifying where each problem kind can come from -/

theorem validateFn_isStepProblem (ex : executableType) (name : String) (fns st : List String) (j : Nat) (fn : CallableFn) :
    ∀ p ∈ (validateFn ex name fns st j fn).1, p.isStepProblem = true := by
  intro p hp
  unfold validateFn at hp
  simp only [List.mem_append] at hp
  rcases hp with ((h | h) | h) | h
  · split_ifs at h <;> simp_all [Problem.isStepProblem]
  · rcases hpw : fn.ParseWith.2 with msg | l <;> rw [hpw] at h <;> simp_all [Problem.isStepProblem]
  · obtain ⟨d, hd, hsome⟩ := List.mem_filterMap.mp h
    by_cases hks : d.Key ∈ st
    · rw [if_pos hks] at hsome
      exact absurd hsome (by simp)
    · rw [if_neg hks] at hsome
      simp only [Option.some.injEq] at hsome
      rw [← hsome]; rfl
  · cases hoe : fn.OnErr with
    | none => simp [hoe] at h
    | some oe =>
      rw [hoe] at h
      unfold onErrProblems at h
      simp only [List.mem_append] at h
      rcases h with (h | h) | h
      · split_ifs at h <;> simp_all [Problem.isStepProblem]
      · split_ifs at h <;> simp_all [Problem.isStepProblem]
      · obtain ⟨cv, hcv, hsome⟩ := List.mem_filterMap.mp h
        by_cases hv : cv.2 ≠ "return" ∧ cv.2 ≠ "continue"
        · rw [if_pos hv] at hsome
          simp only [Option.some.injEq] at hsome
          rw [← hsome]; rfl
        · rw [if_neg hv] at hsome
          exact absurd hsome (by simp)

theorem stepOutputs_isStepProblem (ex : executableType) (name : String) (fns st : List String) (j : Nat) (s : Executable) :
    ∀ p ∈ (stepOutputs ex name fns st j s).1, p.isStepProblem = true := by
  have hshape : ∀ q ∈ (if s.IsFn = false ∧ s.IsGroup = false ∧ s.IsForEach = false
      then [Problem.stepNotFnGroupForEach j ex name] else ([] : List Problem)),
      q.isStepProblem = true := by
    intro q hq
    split_ifs at hq
    · rw [List.mem_singleton.mp hq]; rfl
    · exact absurd hq (List.not_mem_nil q)
  intro p hp
  simp only [stepOutputs] at hp
  by_cases hF : s.IsFn = true
  · rw [if_pos hF] at hp
    rcases List.mem_append.mp hp with h | h
    · exact hshape p h
    · exact validateFn_isStepProblem ex name fns st j s.callableFn p h
  · rw [if_neg hF] at hp
    by_cases hG : s.IsGroup = true
    · rw [if_pos hG] at hp
      rcases List.mem_append.mp hp with h | h
      · exact hshape p h
      · rw [List.map_map] at h
        obtain ⟨lp, hlp, hplp⟩ := List.mem_flatten.mp h
        obtain ⟨gfn, hgfn, heq⟩ := List.mem_map.mp hlp
        rw [← heq] at hplp
        exact validateFn_isStepProblem ex name fns st j gfn p hplp
    · rw [if_neg hG] at hp
      by_cases hFE : s.IsForEach = true
      · rw [if_pos hFE] at hp
        cases hE : s.ForEach with
        | none => rw [hE] at hp; exact hshape p hp
        | some fe =>
          rw [hE] at hp
          rcases List.mem_append.mp hp with h | h
          · rcases List.mem_append.mp h with h2 | h2
            · rcases List.mem_append.mp h2 with h3 | h3
              · exact hshape p h3
              · split_ifs at h3
                · rw [List.mem_singleton.mp h3]; rfl
                · exact absurd h3 (List.not_mem_nil p)
            · split_ifs at h2
              · rw [List.mem_singleton.mp h2]; rfl
              · exact absurd h2 (List.not_mem_nil p)
          · exact validateFn_isStepProblem ex name fns st j fe.Fn p h
      · rw [if_neg hFE] at hp
        exact hshape p hp

theorem validateStepsAux_isStepProblem (ex : executableType) (name : String) (fns : List String) :
    ∀ (steps : List Executable) (j : Nat) (st : List String),
      ∀ p ∈ (validateStepsAux ex name fns steps j st).1, p.isStepProblem = true := by
  intro steps
  induction steps with
  | nil => intro j st p hp; simp [validateStepsAux] at hp
  | cons s rest ih =>
    intro j st p hp
    unfold validateStepsAux at hp
    simp only [List.mem_append] at hp
    rcases hp with h | h
    · exact stepOutputs_isStepProblem ex name fns st j s p h
    · exact ih (j + 1) _ p h

theorem validateSteps_isStepProblem (ex : executableType) (name : String) (steps : List Executable) (init fns : List String) :
    ∀ p ∈ (validateSteps ex name steps init fns).1, p.isStepProblem = true :=
  validateStepsAux_isStepProblem ex name fns steps 0 init

/-- Claim C3 counterexample: the schedule of `c3dir` has summed interval
`-60 + 60·1 = 0`, which is not greater than zero, yet validation reports no
interval defect for it — the code only checks that not all four `every`
fields are zero, not the sign of the sum. -/
theorem c3_counterexample :
    c3sched.NumberOfSeconds = 0 ∧
    Problem.scheduleNoEvery "s" ∉ Directive.validateProblems svTrue c3dir := by
  decide

/-- Claim C3 as amended: for a schedule with a non-empty name and at least one
step, an interval defect is reported iff all four `every` fields
(seconds, minutes, hours, days) are zero — a condition that implies, but is
not implied by, a non-positive summed interval. -/
theorem c3_interval_defect_iff_all_zero
    (fns : List String) (i : Nat) (s : Schedule)
    (hname : s.Name ≠ "") (hsteps : s.Steps ≠ []) :
    (Problem.scheduleNoEvery s.Name ∈ scheduleProblems fns i s ↔
      (s.Every.Seconds = 0 ∧ s.Every.Minutes = 0 ∧ s.Every.Hours = 0 ∧ s.Every.Days = 0)) ∧
    ((s.Every.Seconds = 0 ∧ s.Every.Minutes = 0 ∧ s.Every.Hours = 0 ∧ s.Every.Days = 0) →
      s.NumberOfSeconds = 0) := by
  constructor
  · unfold scheduleProblems
    rw [if_neg hname, if_neg (by simpa using hsteps)]
    simp only [List.mem_append]
    constructor
    · rintro (h | h)
      · split_ifs at h with hz
        · exact hz
        · simp at h
      · exfalso
        have := validateSteps_isStepProblem executableType.schedule s.Name s.Steps (s.State.map Prod.fst) fns _ h
        simp [Problem.isStepProblem] at this
    · intro hz
      exact Or.inl (by rw [if_pos hz]; exact List.mem_singleton.mpr rfl)
  · rintro ⟨h1, h2, h3, h4⟩
    unfold Schedule.NumberOfSeconds
    rw [h1, h2, h3, h4]
    ring

theorem c3_witness :
    Problem.scheduleNoEvery "z" ∈ scheduleProblems ["fetch"] 0
      { Name := "z", Every := { Seconds := 0, Minutes := 0, Hours := 0, Days := 0 },
        State := [], Steps := [fnStep "fetch" []] } :=
  (c3_interval_defect_iff_all_zero ["fetch"] 0
    { Name := "z", Every := { Seconds := 0, Minutes := 0, Hours := 0, Days := 0 },
      State := [], Steps := [fnStep "fetch" []] }
    (by decide) (by decide)).1.mpr (by decide)

/-! ### Helper lemmas: the onErr policy checks -/

theorem onErr_mem_validateFn (ex : executableType) (name : String) (fns st : List String) (j : Nat) (fn : CallableFn) (oe : FnOnErr)
    (hoe : fn.OnErr = some oe) (p : Problem) (hkind : p.isOnErrProblem = true) :
    p ∈ (validateFn ex name fns st j fn).1 ↔ p ∈ onErrProblems ex name j oe := by
  unfold validateFn
  rw [hoe]
  simp only [List.mem_append]
  constructor
  · rintro (((h | h) | h) | h)
    · split_ifs at h <;> simp_all [Problem.isOnErrProblem]
    · rcases hpw : fn.ParseWith.2 with msg | l <;> rw [hpw] at h <;> simp_all [Problem.isOnErrProblem]
    · obtain ⟨d, hd, hsome⟩ := List.mem_filterMap.mp h
      by_cases hks : d.Key ∈ st
      · rw [if_pos hks] at hsome
        exact absurd hsome (by simp)
      · rw [if_neg hks] at hsome
        simp only [Option.some.injEq] at hsome
        rw [← hsome] at hkind
        simp [Problem.isOnErrProblem] at hkind
    · exact h
  · intro h
    exact Or.inr h

theorem onErrAnyWithCodes_mem_iff (ex : executableType) (name : String) (j : Nat) (oe : FnOnErr) :
    Problem.onErrAnyWithCodes ex name j ∈ onErrProblems ex name j oe ↔
      oe.Code ≠ [] ∧ oe.Any ≠ "" := by
  unfold onErrProblems
  simp only [List.mem_append, List.mem_filterMap]
  constructor
  · rintro ((h | h) | h)
    · split_ifs at h with h1 h2 h3 <;> simp_all [List.length_pos]
    · split_ifs at h <;> simp_all
    · obtain ⟨cv, hcv, hsome⟩ := h
      split_ifs at hsome <;> simp_all
  · rintro ⟨hc, ha⟩
    refine Or.inl (Or.inl ?_)
    rw [if_pos ⟨List.length_pos.mpr hc, ha⟩]
    exact List.mem_singleton.mpr rfl

theorem onErrOtherWithoutCodes_mem_iff (ex : executableType) (name : String) (j : Nat) (oe : FnOnErr) :
    Problem.onErrOtherWithoutCodes ex name j ∈ onErrProblems ex name j oe ↔
      oe.Code = [] ∧ oe.Other ≠ "" := by
  unfold onErrProblems
  simp only [List.mem_append, List.mem_filterMap]
  constructor
  · rintro ((h | h) | h)
    · split_ifs at h <;> simp_all
    · split_ifs at h with h1 h2 h3 <;> simp_all
    · obtain ⟨cv, hcv, hsome⟩ := h
      split_ifs at hsome <;> simp_all
  · rintro ⟨hc, ho⟩
    refine Or.inl (Or.inr ?_)
    rw [if_pos ⟨by rw [hc]; rfl, ho⟩]
    exact List.mem_singleton.mpr rfl

theorem onErrAnyInvalid_mem_iff (ex : executableType) (name : String) (j : Nat) (oe : FnOnErr) (v : String) :
    Problem.onErrAnyInvalid ex name j v ∈ onErrProblems ex name j oe ↔
      oe.Code = [] ∧ oe.Any = v ∧ v ≠ "" ∧ v ≠ "continue" ∧ v ≠ "return" := by
  unfold onErrProblems
  simp only [List.mem_append, List.mem_filterMap]
  constructor
  · rintro ((h | h) | h)
    · split_ifs at h with h1 h2 h3 <;> simp_all
    · split_ifs at h <;> simp_all
    · obtain ⟨cv, hcv, hsome⟩ := h
      split_ifs at hsome <;> simp_all
  · rintro ⟨hc, ha, hne, hnc, hnr⟩
    refine Or.inl (Or.inl ?_)
    rw [if_neg (by rw [hc]; simp), if_pos (by rw [ha]; exact hne),
      if_pos ⟨by rw [ha]; exact hnc, by rw [ha]; exact hnr⟩]
    rw [ha]
    exact List.mem_singleton.mpr rfl

theorem onErrOtherInvalid_mem_iff (ex : executableType) (name : String) (j : Nat) (oe : FnOnErr) (v : String) :
    Problem.onErrOtherInvalid ex name j v ∈ onErrProblems ex name j oe ↔
      oe.Code ≠ [] ∧ oe.Other = v ∧ v ≠ "" ∧ v ≠ "continue" ∧ v ≠ "return" := by
  unfold onErrProblems
  simp only [List.mem_append, List.mem_filterMap]
  constructor
  · rintro ((h | h) | h)
    · split_ifs at h <;> simp_all
    · split_ifs at h with h1 h2 h3 <;> simp_all [List.length_eq_zero]
    · obtain ⟨cv, hcv, hsome⟩ := h
      split_ifs at hsome <;> simp_all
  · rintro ⟨hc, ho, hne, hnc, hnr⟩
    refine Or.inl (Or.inr ?_)
    rw [if_neg (by intro habs; exact hc (List.length_eq_zero.mp habs.1)),
      if_pos (by rw [ho]; exact hne),
      if_pos ⟨by rw [ho]; exact hnc, by rw [ho]; exact hnr⟩]
    rw [ho]
    exact List.mem_singleton.mpr rfl

theorem onErrCodeInvalid_mem_iff (ex : executableType) (name : String) (j : Nat) (oe : FnOnErr) (c : Int) (v : String) :
    Problem.onErrCodeInvalid ex name j c v ∈ onErrProblems ex name j oe ↔
      (c, v) ∈ oe.Code ∧ v ≠ "return" ∧ v ≠ "continue" := by
  unfold onErrProblems
  simp only [List.mem_append, List.mem_filterMap]
  constructor
  · rintro ((h | h) | h)
    · split_ifs at h <;> simp_all
    · split_ifs at h <;> simp_all
    · obtain ⟨cv, hcv, hsome⟩ := h
      by_cases hv : cv.2 ≠ "return" ∧ cv.2 ≠ "continue"
      · rw [if_pos hv] at hsome
        simp only [Option.some.injEq, Problem.onErrCodeInvalid.injEq] at hsome
        obtain ⟨_, _, _, hcc, hvv⟩ := hsome
        subst hcc; subst hvv
        exact ⟨by simpa using hcv, hv⟩
      · rw [if_neg hv] at hsome
        exact absurd hsome (by simp)
  · rintro ⟨hcv, hnr, hnc⟩
    refine Or.inr ⟨(c, v), hcv, ?_⟩
    rw [if_pos ⟨hnr, hnc⟩]

/-- Claim C4 counterexample: for `c4fn` (per-code directive `500:"continue"`,
`any:"bogus"`), validation emits only the `any`-with-codes policy defect — the
present directive value `"bogus"`, though not `"continue"`/`"return"`, is
never flagged, because the value check for `any` sits in the `else` branch of
the policy check. -/
theorem c4_counterexample :
    (validateFn executableType.handler "n" ["f"] [] 0 c4fn).1 =
      [Problem.onErrAnyWithCodes executableType.handler "n" 0] ∧
    Problem.onErrAnyInvalid executableType.handler "n" 0 "bogus" ∉
      (validateFn executableType.handler "n" ["f"] [] 0 c4fn).1 := by
  decide

/-- Claim C4 as amended: for every `CallableFn` with a non-nil `onErr` policy,
validation flags the policy defect when per-code directives are non-empty and
`any` is set, and when per-code directives are empty and `other` is set; every
per-code value is always value-checked; but the `any` value is value-checked
only when the per-code directives are empty, and the `other` value only when
they are non-empty — an invalid wildcard value on the policy-defect side
yields only the policy defect. -/
theorem c4_onErr_policy_characterization
    (ex : executableType) (name : String) (fns st : List String) (j : Nat)
    (fn : CallableFn) (oe : FnOnErr) (hoe : fn.OnErr = some oe) :
    (Problem.onErrAnyWithCodes ex name j ∈ (validateFn ex name fns st j fn).1 ↔
      oe.Code ≠ [] ∧ oe.Any ≠ "") ∧
    (Problem.onErrOtherWithoutCodes ex name j ∈ (validateFn ex name fns st j fn).1 ↔
      oe.Code = [] ∧ oe.Other ≠ "") ∧
    (∀ v, Problem.onErrAnyInvalid ex name j v ∈ (validateFn ex name fns st j fn).1 ↔
      oe.Code = [] ∧ oe.Any = v ∧ v ≠ "" ∧ v ≠ "continue" ∧ v ≠ "return") ∧
    (∀ v, Problem.onErrOtherInvalid ex name j v ∈ (validateFn ex name fns st j fn).1 ↔
      oe.Code ≠ [] ∧ oe.Other = v ∧ v ≠ "" ∧ v ≠ "continue" ∧ v ≠ "return") ∧
    (∀ c v, Problem.onErrCodeInvalid ex name j c v ∈ (validateFn ex name fns st j fn).1 ↔
      (c, v) ∈ oe.Code ∧ v ≠ "return" ∧ v ≠ "continue") := by
  refine ⟨?_, ?_, fun v => ?_, fun v => ?_, fun c v => ?_⟩
  · rw [onErr_mem_validateFn ex name fns st j fn oe hoe (Problem.onErrAnyWithCodes ex name j) rfl]
    exact onErrAnyWithCodes_mem_iff ex name j oe
  · rw [onErr_mem_validateFn ex name fns st j fn oe hoe (Problem.onErrOtherWithoutCodes ex name j) rfl]
    exact onErrOtherWithoutCodes_mem_iff ex name j oe
  · rw [onErr_mem_validateFn ex name fns st j fn oe hoe (Problem.onErrAnyInvalid ex name j v) rfl]
    exact onErrAnyInvalid_mem_iff ex name j oe v
  · rw [onErr_mem_validateFn ex name fns st j fn oe hoe (Problem.onErrOtherInvalid ex name j v) rfl]
    exact onErrOtherInvalid_mem_iff ex name j oe v
  · rw [onErr_mem_validateFn ex name fns st j fn oe hoe (Problem.onErrCodeInvalid ex name j c v) rfl]
    exact onErrCodeInvalid_mem_iff ex name j oe c v

theorem c4_witness :
    Problem.onErrAnyWithCodes executableType.handler "n" 0 ∈
      (validateFn executableType.handler "n" ["f"] [] 0 c4fn).1 ∧
    Problem.onErrCodeInvalid executableType.handler "n" 0 500 "oops" ∈
      (validateFn executableType.handler "n" ["f"] [] 0
        { c4fn with OnErr := some { Code := [(500, "oops")], Any := "", Other := "" } }).1 := by
  constructor
  · exact (c4_onErr_policy_characterization executableType.handler "n" ["f"] [] 0 c4fn
      { Code := [(500, "continue")], Any := "bogus", Other := "" } rfl).1.mpr (by decide)
  · exact ((c4_onErr_policy_characterization executableType.handler "n" ["f"] [] 0
      { c4fn with OnErr := some { Code := [(500, "oops")], Any := "", Other := "" } }
      { Code := [(500, "oops")], Any := "", Other := "" } rfl).2.2.2.2 500 "oops").mpr (by decide)

/-- Claim C8 counterexample: on the spec's own example — an otherwise valid
document whose single step carries the one-part `with` entry `"user"` —
validation produces exactly TWO problems, not one: the syntax defect and a
dependency defect for the empty-string key (the zero-value `Alias` left in
the `DesiredState` slice by the failed parse is still dependency-checked). -/
theorem c8_counterexample :
    Directive.validateProblems svTrue (c8dir "user") =
      [Problem.invalidWith executableType.handler "GET /x" 0 (wrongFormatMsg 1),
       Problem.keyNotAvailable executableType.handler "GET /x" 0 ""] ∧
    (Directive.validateProblems svTrue (c8dir "user")).length = 2 := by
  decide

/-- Claim C8 as amended: for the example document with any `with` entry that
does not split into exactly two parts on `": "`, validation fails with exactly
two problems on that step — one syntax defect and one dependency defect for
the empty-string key left behind by the failed parse. -/
theorem c8_malformed_with_two_problems (w : String)
    (hw : (splitColonSpace w).length ≠ 2) :
    Directive.validateProblems svTrue (c8dir w) =
      [Problem.invalidWith executableType.handler "GET /x" 0 (wrongFormatMsg (splitColonSpace w).length),
       Problem.keyNotAvailable executableType.handler "GET /x" 0 ""] := by
  simp [Directive.validateProblems, directiveHeadProblems, c8dir, baseDir, demoHandler, fnStep,
    simpleFn, svTrue, runnablesAux, handlerProblems, validateSteps, validateStepsAux, stepOutputs,
    Executable.IsFn, Executable.IsGroup, Executable.IsForEach, validateFn, CallableFn.ParseWith,
    parseWithAux, CallableFn.producedKey, NamespaceDefault, InputTypeRequest, hw]

theorem c8_witness :
    Directive.validateProblems svTrue (c8dir "a: b: c") =
      [Problem.invalidWith executableType.handler "GET /x" 0 (wrongFormatMsg 3),
       Problem.keyNotAvailable executableType.handler "GET /x" 0 ""] :=
  c8_malformed_with_two_problems "a: b: c" (by decide)

/-- Claim C9: Go `Validate` is side-effect-free on its receiver — every write
it performs (the `ParseWith` cache fills included) lands in a by-value copy,
the `fqfns` cache is never touched, and running it twice on the same
`Directive` returns equal results. -/
theorem c9_validate_pure (sv : String → Bool) (d : Directive) :
    (Directive.ValidateMut sv d).1 = d ∧
    (Directive.ValidateMut sv (Directive.ValidateMut sv d).1).2 = (Directive.ValidateMut sv d).2 ∧
    (Directive.ValidateMut sv d).2 = Directive.Validate sv d :=
  ⟨rfl, rfl, rfl⟩

/-! ### Helper lemmas: the aggregate error -/

theorem renderedLines_nil : renderedLines [] = "" := rfl

theorem renderedLines_cons (p : Problem) (rest : List Problem) :
    renderedLines (p :: rest) = ("\n\t" ++ p.render) ++ renderedLines rest := rfl

theorem foldl_render_eq (ps : List Problem) :
    ∀ init : String,
      ps.foldl (fun text e => text ++ ("\n\t" ++ e.render)) init = init ++ renderedLines ps := by
  induction ps with
  | nil => intro init; rw [renderedLines_nil, String.append_empty]; rfl
  | cons p rest ih =>
    intro init
    rw [List.foldl_cons, ih, renderedLines_cons, String.append_assoc]

/-- Claim C2 counterexample: a schedule with an empty name has its steps
skipped entirely (`continue`), so the unknown-function defect of its step is
never discovered — the full problem list for `c2dir` is just the missing-name
defect, contradicting "every … step of the document is traversed and no
discovered defect is dropped". -/
theorem c2_counterexample :
    Directive.validateProblems svTrue c2dir = [Problem.scheduleNoName 0] ∧
    Problem.fnNotExist executableType.schedule "" 0 "nofn" ∉
      Directive.validateProblems svTrue c2dir := by
  decide

/-- Claim C2 as amended: Validate returns nil iff no defect was collected;
otherwise it returns exactly one aggregate error whose message carries the
total defect count and one rendered line per defect in discovery order; and
every handler's and every schedule's collected defects appear in full
(as a sublist) in the aggregate — handlers and schedules that fail their
structural prechecks (no steps; schedules with an empty name) have their
steps skipped, which is the only way a step escapes traversal. -/
theorem c2_single_aggregate_error (sv : String → Bool) (d : Directive) :
    (Directive.Validate sv d = none ↔ Directive.validateProblems sv d = []) ∧
    (Directive.validateProblems sv d ≠ [] →
      Directive.Validate sv d =
        some (("found " ++ toString (Directive.validateProblems sv d).length ++ " problems:") ++
          renderedLines (Directive.validateProblems sv d))) ∧
    (∀ h ∈ d.Handlers,
      List.Sublist (handlerProblems (runnablesAux 0 [] d.Runnables).2 h)
        (Directive.validateProblems sv d)) ∧
    (∀ p ∈ d.Schedules.enum,
      List.Sublist (scheduleProblems (runnablesAux 0 [] d.Runnables).2 p.1 p.2)
        (Directive.validateProblems sv d)) := by
  refine ⟨?_, ?_, ?_, ?_⟩
  · unfold Directive.Validate problemsRender
    cases hps : Directive.validateProblems sv d with
    | nil => simp
    | cons p rest => simp
  · intro hne
    unfold Directive.Validate problemsRender
    cases hps : Directive.validateProblems sv d with
    | nil => exact absurd hps hne
    | cons p rest =>
      dsimp only
      rw [foldl_render_eq]
  · intro h hh
    have h1 : List.Sublist (handlerProblems (runnablesAux 0 [] d.Runnables).2 h)
        ((d.Handlers.map (handlerProblems (runnablesAux 0 [] d.Runnables).2)).flatten) :=
      List.sublist_flatten_of_mem (List.mem_map_of_mem _ hh)
    exact (h1.trans (List.sublist_append_right _ _)).trans (List.sublist_append_left _ _)
  · intro p hp
    have h1 : List.Sublist (scheduleProblems (runnablesAux 0 [] d.Runnables).2 p.1 p.2)
        ((d.Schedules.enum.map (fun q => scheduleProblems (runnablesAux 0 [] d.Runnables).2 q.1 q.2)).flatten) :=
      List.sublist_flatten_of_mem (List.mem_map_of_mem _ hp)
    exact h1.trans (List.sublist_append_right _ _)

theorem c2_witness :
    Directive.Validate svTrue c2dir =
      some ("found 1 problems:\n\tschedule at position 0 has no name") := by
  have h := (c2_single_aggregate_error svTrue c2dir).2.1 (by decide)
  rw [h]
  decide

/-! ### Helper lemmas: membership utilities and string inequalities -/

theorem mem_ite_singleton {c : Prop} [Decidable c] {q p : Problem}
    (h : p ∈ (if c then [q] else ([] : List Problem))) : p = q := by
  split_ifs at h
  · exact List.mem_singleton.mp h
  · exact absurd h (List.not_mem_nil p)

theorem mem_ite_singleton' {c : Prop} [Decidable c] {q p : Problem}
    (h : p ∈ (if c then ([] : List Problem) else [q])) : p = q := by
  split_ifs at h
  · exact absurd h (List.not_mem_nil p)
  · exact List.mem_singleton.mp h

theorem str_ne_of_data_length {a b : String} (h : a.data.length ≠ b.data.length) : a ≠ b :=
  fun he => h (by rw [he])

theorem str_ne_prepend (p s : String) (hp : p.data ≠ []) : s ≠ p ++ s := by
  apply str_ne_of_data_length
  rw [String.data_append, List.length_append]
  have : 0 < p.data.length := List.length_pos.mpr hp
  omega

theorem str_append_ne_append (p q s : String) (h : p.data.length ≠ q.data.length) :
    p ++ s ≠ q ++ s := by
  apply str_ne_of_data_length
  rw [String.data_append, String.data_append, List.length_append, List.length_append]
  omega

/-! ### Helper lemmas: nothing outside the runnables loop reports duplicates -/

theorem isStepProblem_not_duplicateFn (p : Problem) (h : p.isStepProblem = true) :
    p.isDuplicateFn = false := by
  cases p <;> simp_all [Problem.isStepProblem, Problem.isDuplicateFn]

theorem handlerProblems_no_duplicateFn (fns : List String) (h : Handler) :
    ∀ p ∈ handlerProblems fns h, p.isDuplicateFn = false := by
  intro p hp
  unfold handlerProblems at hp
  by_cases hsteps : h.Steps.length = 0
  · rw [if_pos hsteps] at hp
    rcases List.mem_append.mp hp with h1 | h1
    · rcases List.mem_append.mp h1 with h2 | h2
      · rcases List.mem_append.mp h2 with h3 | h3
        · rw [mem_ite_singleton h3]; rfl
        · rw [mem_ite_singleton h3]; rfl
      · rw [mem_ite_singleton h2]; rfl
    · rw [List.mem_singleton.mp h1]; rfl
  · rw [if_neg hsteps] at hp
    rcases List.mem_append.mp hp with h1 | h1
    · rcases List.mem_append.mp h1 with h2 | h2
      · rcases List.mem_append.mp h2 with h3 | h3
        · rcases List.mem_append.mp h3 with h4 | h4
          · rw [mem_ite_singleton h4]; rfl
          · rw [mem_ite_singleton h4]; rfl
        · rw [mem_ite_singleton h3]; rfl
      · exact isStepProblem_not_duplicateFn p
          (validateSteps_isStepProblem executableType.handler _ h.Steps [] fns p h2)
    · split_ifs at h1
      · rw [List.mem_singleton.mp h1]; rfl
      · rw [List.mem_singleton.mp h1]; rfl
      · exact absurd h1 (List.not_mem_nil p)

theorem scheduleProblems_no_duplicateFn (fns : List String) (i : Nat) (s : Schedule) :
    ∀ p ∈ scheduleProblems fns i s, p.isDuplicateFn = false := by
  intro p hp
  unfold scheduleProblems at hp
  split_ifs at hp
  · rw [List.mem_singleton.mp hp]; rfl
  · rw [List.mem_singleton.mp hp]; rfl
  · rcases List.mem_append.mp hp with h1 | h1
    · rw [List.mem_singleton.mp h1]; rfl
    · exact isStepProblem_not_duplicateFn p
        (validateSteps_isStepProblem executableType.schedule s.Name s.Steps (s.State.map Prod.fst) fns p h1)
  · rcases List.mem_append.mp hp with h1 | h1
    · exact absurd h1 (List.not_mem_nil p)
    · exact isStepProblem_not_duplicateFn p
        (validateSteps_isStepProblem executableType.schedule s.Name s.Steps (s.State.map Prod.fst) fns p h1)

theorem directiveHeadProblems_no_duplicateFn (sv : String → Bool) (d : Directive) :
    ∀ p ∈ directiveHeadProblems sv d, p.isDuplicateFn = false := by
  intro p hp
  unfold directiveHeadProblems at hp
  rcases List.mem_append.mp hp with h1 | h1
  · rcases List.mem_append.mp h1 with h2 | h2
    · rcases List.mem_append.mp h2 with h3 | h3
      · rw [mem_ite_singleton h3]; rfl
      · rw [mem_ite_singleton' h3]; rfl
    · rw [mem_ite_singleton' h2]; rfl
  · rw [mem_ite_singleton h1]; rfl

/-! ### Helper lemmas: single steps of the runnables loop -/

theorem runnablesAux_cons_dup_namespaced (i : Nat) (fns : List String) (f : Runnable) (rest : List Runnable)
    (h1 : (f.Namespace ++ "#" ++ f.Name) ∈ fns) :
    runnablesAux i fns (f :: rest) =
      (Problem.duplicateFn (f.Namespace ++ "#" ++ f.Name) :: (runnablesAux (i + 1) fns rest).1,
        (runnablesAux (i + 1) fns rest).2) := by
  conv_lhs => rw [runnablesAux]
  rw [if_pos h1]

theorem runnablesAux_cons_dup_bare (i : Nat) (fns : List String) (f : Runnable) (rest : List Runnable)
    (h1 : (f.Namespace ++ "#" ++ f.Name) ∉ fns) (h2 : f.Name ∈ fns) :
    runnablesAux i fns (f :: rest) =
      (Problem.duplicateFn (f.Namespace ++ "#" ++ f.Name) :: (runnablesAux (i + 1) fns rest).1,
        (runnablesAux (i + 1) fns rest).2) := by
  conv_lhs => rw [runnablesAux]
  rw [if_neg h1, if_pos h2]

theorem runnablesAux_cons_fresh (i : Nat) (fns : List String) (f : Runnable) (rest : List Runnable)
    (h1 : (f.Namespace ++ "#" ++ f.Name) ∉ fns) (h2 : f.Name ∉ fns) (h3 : f.Name ≠ "") :
    runnablesAux i fns (f :: rest) =
      ((if f.Namespace = "" then [Problem.missingNamespace i] else []) ++
        (runnablesAux (i + 1) (if f.Namespace = NamespaceDefault
          then fns ++ [f.Name, f.Namespace ++ "#" ++ f.Name]
          else fns ++ [f.Namespace ++ "#" ++ f.Name]) rest).1,
        (runnablesAux (i + 1) (if f.Namespace = NamespaceDefault
          then fns ++ [f.Name, f.Namespace ++ "#" ++ f.Name]
          else fns ++ [f.Namespace ++ "#" ++ f.Name]) rest).2) := by
  conv_lhs => rw [runnablesAux]
  rw [if_neg h1, if_neg h2, if_neg h3]

theorem runnablesAux_nil (i : Nat) (fns : List String) :
    runnablesAux i fns [] = ([], fns) := rfl


theorem runnablesAux_two_same_count (nm ns : String) (hnm : nm ≠ "") :
    (runnablesAux 0 [] [{ Name := nm, Namespace := ns }, { Name := nm, Namespace := ns }]).1.countP
      Problem.isDuplicateFn = 1 := by
  rw [runnablesAux_cons_fresh 0 [] { Name := nm, Namespace := ns } [{ Name := nm, Namespace := ns }]
    (List.not_mem_nil _) (List.not_mem_nil _) hnm]
  by_cases hd : ns = NamespaceDefault
  · rw [if_pos hd]
    rw [runnablesAux_cons_dup_namespaced 1 _ { Name := nm, Namespace := ns } [] (by simp)]
    rw [runnablesAux_nil]
    by_cases hne : ns = ""
    · rw [if_pos hne]
      simp [List.countP_append, List.countP_cons, Problem.isDuplicateFn]
    · rw [if_neg hne]
      simp [List.countP_append, List.countP_cons, Problem.isDuplicateFn]
  · rw [if_neg hd]
    rw [runnablesAux_cons_dup_namespaced 1 _ { Name := nm, Namespace := ns } [] (by simp)]
    rw [runnablesAux_nil]
    by_cases hne : ns = ""
    · rw [if_pos hne]
      simp [List.countP_append, List.countP_cons, Problem.isDuplicateFn]
    · rw [if_neg hne]
      simp [List.countP_append, List.countP_cons, Problem.isDuplicateFn]

theorem runnablesAux_other_then_default (nm : String) (hnm : nm ≠ "") :
    (runnablesAux 0 []
      [{ Name := nm, Namespace := "other" }, { Name := nm, Namespace := "default" }]).1.countP
      Problem.isDuplicateFn = 0 := by
  rw [runnablesAux_cons_fresh 0 [] { Name := nm, Namespace := "other" }
    [{ Name := nm, Namespace := "default" }] (List.not_mem_nil _) (List.not_mem_nil _) hnm]
  rw [if_neg (show ¬("other" : String) = NamespaceDefault by decide)]
  have hne1 : ("default#" ++ nm : String) ≠ ("other#" ++ nm) :=
    str_append_ne_append "default#" "other#" nm (by decide)
  have hne2 : nm ≠ ("other#" ++ nm : String) := str_ne_prepend "other#" nm (by decide)
  rw [runnablesAux_cons_fresh 1 _ { Name := nm, Namespace := "default" } []
    (by simp [hne1]) (by simp [hne2]) hnm]
  rw [if_pos (show ("default" : String) = NamespaceDefault from rfl)]
  rw [runnablesAux_nil]
  simp [List.countP_append, Problem.isDuplicateFn]

theorem runnablesAux_default_then_other (nm : String) (hnm : nm ≠ "") :
    (runnablesAux 0 []
      [{ Name := nm, Namespace := "default" }, { Name := nm, Namespace := "other" }]).1.countP
      Problem.isDuplicateFn = 1 := by
  rw [runnablesAux_cons_fresh 0 [] { Name := nm, Namespace := "default" }
    [{ Name := nm, Namespace := "other" }] (List.not_mem_nil _) (List.not_mem_nil _) hnm]
  rw [if_pos (show ("default" : String) = NamespaceDefault from rfl)]
  have hne1 : ("other#" ++ nm : String) ≠ nm := (str_ne_prepend "other#" nm (by decide)).symm
  have hne2 : ("other#" ++ nm : String) ≠ ("default#" ++ nm) :=
    str_append_ne_append "other#" "default#" nm (by decide)
  rw [runnablesAux_cons_dup_bare 1 _ { Name := nm, Namespace := "other" } []
    (by simp [hne1, hne2]) (by simp)]
  rw [runnablesAux_nil]
  simp [List.countP_append, List.countP_cons, Problem.isDuplicateFn]

theorem handlers_flatten_no_dup (fns : List String) (hs : List Handler) :
    ((hs.map (handlerProblems fns)).flatten.countP Problem.isDuplicateFn) = 0 := by
  apply List.countP_eq_zero.mpr
  intro p hp
  obtain ⟨lp, hlp, hplp⟩ := List.mem_flatten.mp hp
  obtain ⟨h, hh, heq⟩ := List.mem_map.mp hlp
  rw [← heq] at hplp
  rw [handlerProblems_no_duplicateFn fns h p hplp]
  simp

theorem schedules_flatten_no_dup (fns : List String) (ss : List Schedule) :
    ((ss.enum.map (fun q => scheduleProblems fns q.1 q.2)).flatten.countP Problem.isDuplicateFn) = 0 := by
  apply List.countP_eq_zero.mpr
  intro p hp
  obtain ⟨lp, hlp, hplp⟩ := List.mem_flatten.mp hp
  obtain ⟨q, hq, heq⟩ := List.mem_map.mp hlp
  rw [← heq] at hplp
  rw [scheduleProblems_no_duplicateFn fns q.1 q.2 p hplp]
  simp

theorem headProblems_no_dup (sv : String → Bool) (d : Directive) :
    ((directiveHeadProblems sv d).countP Problem.isDuplicateFn) = 0 := by
  apply List.countP_eq_zero.mpr
  intro p hp
  rw [directiveHeadProblems_no_duplicateFn sv d p hp]
  simp

/-- Claim C5 counterexample: in a document whose runnables are
`other#foo` followed by `default#foo` — a colliding pair under the claim's
dual-registration rule — validation reports NO problem at all: the bare name
`foo` is only registered for default-namespace runnables, so with the
non-default one first the collision is never detected. -/
theorem c5_counterexample :
    Directive.validateProblems svTrue c5dir = [] := by
  decide

/-- Claim C5 as amended: duplicates are reported once per offending position,
where a later runnable collides only against already-registered keys (its
`namespace#name`, or its bare name against an earlier default-namespace
registration) — so a document with exactly two runnables sharing
`namespace#name` yields exactly one duplicate problem, the cross-namespace
bare-name collision is detected when the default-namespace runnable comes
first, and it is NOT detected in the opposite order. -/
theorem c5_duplicate_reporting
    (sv : String → Bool) (idf av atv : String) (hs : List Handler) (ss : List Schedule)
    (cache : Option (List (String × String))) (nm ns : String) (hnm : nm ≠ "") :
    ((Directive.validateProblems sv
        { Identifier := idf, AppVersion := av, AtmoVersion := atv,
          Runnables := [{ Name := nm, Namespace := ns }, { Name := nm, Namespace := ns }],
          Handlers := hs, Schedules := ss, fqfns := cache }).countP Problem.isDuplicateFn = 1) ∧
    ((runnablesAux 0 []
        [{ Name := nm, Namespace := "other" }, { Name := nm, Namespace := "default" }]).1.countP
        Problem.isDuplicateFn = 0) ∧
    ((runnablesAux 0 []
        [{ Name := nm, Namespace := "default" }, { Name := nm, Namespace := "other" }]).1.countP
        Problem.isDuplicateFn = 1) := by
  refine ⟨?_, runnablesAux_other_then_default nm hnm, runnablesAux_default_then_other nm hnm⟩
  unfold Directive.validateProblems
  dsimp only
  rw [List.countP_append, List.countP_append, List.countP_append]
  rw [headProblems_no_dup, runnablesAux_two_same_count nm ns hnm,
    handlers_flatten_no_dup, schedules_flatten_no_dup]

theorem c5_witness :
    (Directive.validateProblems svTrue
      { Identifier := "demo", AppVersion := "v0.1.0", AtmoVersion := "v0.1.0",
        Runnables := [{ Name := "foo", Namespace := "default" }, { Name := "foo", Namespace := "default" }],
        Handlers := [], Schedules := [], fqfns := none }).countP Problem.isDuplicateFn = 1 :=
  (c5_duplicate_reporting svTrue "demo" "v0.1.0" "v0.1.0" [] [] none "foo" "default" (by decide)).1


/-! ### Helper lemmas: the FQFN registration map -/

theorem mapGet_nil (key : String) : mapGet [] key = none := rfl

theorem mapGet_mapSet (m : List (String × String)) (k v key : String) :
    mapGet (mapSet m k v) key = if key = k then some v else mapGet m key := by
  by_cases h : key = k
  · rw [if_pos h, h]
    simp [mapGet, mapSet, List.find?]
  · rw [if_neg h]
    simp only [mapGet, mapSet, List.find?]
    rw [show ((k, v).1 == key) = false by simpa using fun he => h he.symm]

theorem mem_data_hash_append (a b : String) : '#' ∈ (a ++ "#" ++ b).data := by
  rw [String.data_append, String.data_append]
  have h : ("#" : String).data = ['#'] := rfl
  rw [h]
  simp

theorem noHash_spec {s : String} (h : noHash s = true) : ∀ c ∈ s.data, c ≠ '#' := by
  intro c hc
  have := List.all_eq_true.mp h c hc
  simpa using this

theorem noHash_ne_append (s a b : String) (h : noHash s = true) : s ≠ a ++ "#" ++ b := by
  intro he
  have hm : '#' ∈ s.data := by rw [he]; exact mem_data_hash_append a b
  exact noHash_spec h '#' hm rfl

theorem hash_decomp_chars :
    ∀ (a c : List Char) (b d : List Char), '#' ∉ b → '#' ∉ d →
      a ++ '#' :: b = c ++ '#' :: d → a = c ∧ b = d := by
  intro a
  induction a with
  | nil =>
    intro c b d hb hd he
    cases c with
    | nil => simpa using he
    | cons x xs =>
      simp only [List.nil_append, List.cons_append, List.cons.injEq] at he
      obtain ⟨hx, hrest⟩ := he
      exfalso
      apply hb
      rw [hrest]
      exact List.mem_append_right xs (by simp)
  | cons x xs ih =>
    intro c b d hb hd he
    cases c with
    | nil =>
      simp only [List.nil_append, List.cons_append, List.cons.injEq] at he
      obtain ⟨hx, hrest⟩ := he
      exfalso
      apply hd
      rw [← hrest]
      exact List.mem_append_right xs (by simp)
    | cons y ys =>
      simp only [List.cons_append, List.cons.injEq] at he
      obtain ⟨hxy, hrest⟩ := he
      obtain ⟨h1, h2⟩ := ih ys b d hb hd hrest
      exact ⟨by rw [hxy, h1], h2⟩

theorem hash_decomp_str (a b c d : String) (hb : noHash b = true) (hd : noHash d = true)
    (he : a ++ "#" ++ b = c ++ "#" ++ d) : a = c ∧ b = d := by
  have hdata : a.data ++ '#' :: b.data = c.data ++ '#' :: d.data := by
    have := congrArg String.data he
    simpa [String.data_append, List.append_assoc] using this
  have hb' : '#' ∉ b.data := fun hm => noHash_spec hb '#' hm rfl
  have hd' : '#' ∉ d.data := fun hm => noHash_spec hd '#' hm rfl
  obtain ⟨h1, h2⟩ := hash_decomp_chars a.data c.data b.data d.data hb' hd' hdata
  exact ⟨String.ext h1, String.ext h2⟩


theorem mapGet_fqfnStep (av : String) (m : List (String × String)) (g : Runnable) (key : String) :
    mapGet (fqfnStep av m g) key =
      if touches g key then some (g.Namespace ++ "#" ++ g.Name ++ "@" ++ av) else mapGet m key := by
  by_cases hd : g.Namespace = NamespaceDefault <;>
    by_cases h1 : key = g.Namespace ++ "#" ++ g.Name <;>
      by_cases h2 : key = g.Name <;>
        simp [fqfnStep, touches, mapGet_mapSet, hd, h1, h2]

theorem mapGet_foldl_fqfnStep (av : String) :
    ∀ (rs : List Runnable) (m : List (String × String)) (key V : String),
      (∀ g ∈ rs, touches g key = true → g.Namespace ++ "#" ++ g.Name ++ "@" ++ av = V) →
      mapGet (rs.foldl (fqfnStep av) m) key =
        if rs.any (fun g => touches g key) then some V else mapGet m key := by
  intro rs
  induction rs with
  | nil => intro m key V hagree; simp
  | cons g rest ih =>
    intro m key V hagree
    rw [List.foldl_cons]
    rw [ih (fqfnStep av m g) key V (fun g' hg' => hagree g' (List.mem_cons_of_mem g hg'))]
    by_cases hany : rest.any (fun g' => touches g' key) = true
    · simp [hany, List.any_cons]
    · by_cases ht : touches g key = true
      · have hv := hagree g (List.mem_cons_self g rest) ht
        simp [List.any_cons, ht, hany, mapGet_fqfnStep, hv]
      · simp [List.any_cons, ht, hany, mapGet_fqfnStep]


theorem FQFN_ok_of_mapGet (d : Directive) (key v : String) (hcache : d.fqfns = none)
    (hm : mapGet d.fqfnMap key = some v) : (d.FQFN key).2 = Except.ok v := by
  unfold Directive.FQFN Directive.calculateFQFNs
  rw [hcache]
  simp [hm]

theorem FQFN_error_of_mapGet (d : Directive) (key : String) (hcache : d.fqfns = none)
    (hm : mapGet d.fqfnMap key = none) :
    (d.FQFN key).2 = Except.error ("fn " ++ key ++ " does not exist") := by
  unfold Directive.FQFN Directive.calculateFQFNs
  rw [hcache]
  simp [hm]

/-- Claim C6 counterexample: for `c6dir` (one default-namespace runnable
`foo`, app version `v0.1.0`) the lookup keys are `foo` and `default#foo`;
the key form `default#foo@v0.1.0` claimed by the spec is NOT registered and
fails with the not-found error. -/
theorem c6_counterexample :
    (Directive.FQFN c6dir "default#foo@v0.1.0").2 =
      Except.error "fn default#foo@v0.1.0 does not exist" ∧
    (Directive.FQFN c6dir "foo").2 = Except.ok "default#foo@v0.1.0" ∧
    (Directive.FQFN c6dir "default#foo").2 = Except.ok "default#foo@v0.1.0" := by
  decide

/-- Claim C6 as amended: in a fresh directive whose runnable names contain no
`#`, a default-namespace runnable `foo` resolves under the two lookup keys
`foo` and `default#foo` (not `default#foo@<appVersion>`), both returning the
FQFN string `default#foo@<appVersion>`; a non-default-namespace runnable
whose bare name no default-namespace runnable shares resolves only under its
namespaced form; and lookup of any unregistered name fails with the Go
not-found error naming the requested key. -/
theorem c6_fqfn_registration
    (d : Directive) (foo : String)
    (hcache : d.fqfns = none)
    (hnames : ∀ g ∈ d.Runnables, noHash g.Name = true)
    (hmem : { Name := foo, Namespace := NamespaceDefault } ∈ d.Runnables) :
    ((d.FQFN foo).2 = Except.ok ("default#" ++ foo ++ "@" ++ d.AppVersion)) ∧
    ((d.FQFN ("default#" ++ foo)).2 = Except.ok ("default#" ++ foo ++ "@" ++ d.AppVersion)) ∧
    (∀ r ∈ d.Runnables, r.Namespace ≠ NamespaceDefault →
      (∀ g ∈ d.Runnables, ¬(g.Namespace = NamespaceDefault ∧ g.Name = r.Name)) →
      (d.FQFN r.Name).2 = Except.error ("fn " ++ r.Name ++ " does not exist") ∧
      (d.FQFN (r.Namespace ++ "#" ++ r.Name)).2 =
        Except.ok (r.Namespace ++ "#" ++ r.Name ++ "@" ++ d.AppVersion)) ∧
    (∀ key, mapGet d.fqfnMap key = none →
      (d.FQFN key).2 = Except.error ("fn " ++ key ++ " does not exist")) := by
  have hlit : ("default" ++ "#" : String) = "default#" := by decide
  have hfoo : noHash foo = true := by simpa using hnames _ hmem
  have hfold : ("default#" ++ foo : String) = "default" ++ "#" ++ foo := by rw [← hlit]
  have hmap : ∀ (key V : String),
      (∀ g ∈ d.Runnables, touches g key = true →
        g.Namespace ++ "#" ++ g.Name ++ "@" ++ d.AppVersion = V) →
      d.Runnables.any (fun g => touches g key) = true →
      mapGet d.fqfnMap key = some V := by
    intro key V hagree hany
    unfold Directive.fqfnMap
    rw [mapGet_foldl_fqfnStep d.AppVersion d.Runnables [] key V hagree, if_pos hany]
  refine ⟨?_, ?_, ?_, fun key hm => FQFN_error_of_mapGet d key hcache hm⟩
  · apply FQFN_ok_of_mapGet d foo _ hcache
    apply hmap
    · intro g hg ht
      simp only [touches, Bool.or_eq_true, Bool.and_eq_true, decide_eq_true_eq] at ht
      rcases ht with ⟨hdft, hkey⟩ | hkey
      · rw [hdft, ← hkey]
        rw [show NamespaceDefault = ("default" : String) from rfl, hlit]
      · exact absurd hkey (noHash_ne_append foo g.Namespace g.Name hfoo)
    · exact List.any_eq_true.mpr ⟨_, hmem, by simp [touches]⟩
  · apply FQFN_ok_of_mapGet d _ _ hcache
    apply hmap
    · intro g hg ht
      simp only [touches, Bool.or_eq_true, Bool.and_eq_true, decide_eq_true_eq] at ht
      rcases ht with ⟨hdft, hkey⟩ | hkey
      · exfalso
        apply noHash_ne_append g.Name "default" foo (hnames g hg)
        rw [← hkey]
        exact hfold
      · obtain ⟨h1, h2⟩ := hash_decomp_str "default" foo g.Namespace g.Name hfoo (hnames g hg)
          (by rw [← hfold]; exact hkey)
        rw [← h1, ← h2, hlit]
    · refine List.any_eq_true.mpr ⟨_, hmem, ?_⟩
      simp only [touches, Bool.or_eq_true, decide_eq_true_eq]
      right
      rw [hfold]
      rfl
  · intro r hr hrnd hnodft
    constructor
    · apply FQFN_error_of_mapGet d r.Name hcache
      have hany : d.Runnables.any (fun g => touches g r.Name) = false := by
        rw [List.any_eq_false]
        intro g hg ht
        simp only [touches, Bool.or_eq_true, Bool.and_eq_true, decide_eq_true_eq] at ht
        rcases ht with ⟨hdft, hkey⟩ | hkey
        · exact hnodft g hg ⟨hdft, hkey.symm⟩
        · exact noHash_ne_append r.Name g.Namespace g.Name (hnames r hr) hkey
      unfold Directive.fqfnMap
      rw [mapGet_foldl_fqfnStep d.AppVersion d.Runnables [] r.Name ""
        (fun g hg ht => absurd ht (by rw [List.any_eq_false] at hany; simpa using hany g hg)),
        if_neg (by rw [hany]; simp)]
      rfl
    · apply FQFN_ok_of_mapGet d _ _ hcache
      apply hmap
      · intro g hg ht
        simp only [touches, Bool.or_eq_true, Bool.and_eq_true, decide_eq_true_eq] at ht
        rcases ht with ⟨hdft, hkey⟩ | hkey
        · exact absurd hkey.symm (noHash_ne_append g.Name r.Namespace r.Name (hnames g hg))
        · obtain ⟨h1, h2⟩ := hash_decomp_str r.Namespace r.Name g.Namespace g.Name
            (hnames r hr) (hnames g hg) hkey
          rw [← h1, ← h2]
      · refine List.any_eq_true.mpr ⟨_, hr, ?_⟩
        simp [touches]

theorem c6_witness :
    (Directive.FQFN c6dir "foo").2 = Except.ok ("default#" ++ "foo" ++ "@" ++ c6dir.AppVersion) ∧
    (Directive.FQFN c6dir ("default#" ++ "foo")).2 =
      Except.ok ("default#" ++ "foo" ++ "@" ++ c6dir.AppVersion) := by
  have h := c6_fqfn_registration c6dir "foo" rfl (by decide) (by decide)
  exact ⟨h.1, h.2.1⟩

end Atmo
